import Mathlib

/-!
Shallow embedding of `src/analysis/postprocess/fft_plot.py`
(the streaming FFT-averaging pipeline of the crater-sw repository):
the `RerunReader.iter_tables` window assembler, the
`FrequencyDomainAverage` spectral accumulator, and the module-level
processing loop.  Python floats are modelled as rationals (`ℚ`);
machine integers as `ℤ`/`ℕ`; raised Python exceptions as `Except PyErr`.
A result that numpy produces by dividing by zero (NaN or ±inf, which
numpy returns with a warning instead of raising) is modelled as `none`
in an `Option ℚ`.
-/

/-- Python exceptions that the embedded code can raise. -/
inductive PyErr where
  | typeError
  | valueError
  | zeroDivisionError
  deriving DecidableEq, Repr

/-! ## numpy array primitives used by the source -/

/-- Element-wise product `a * b` of two 1-D numpy arrays with numpy
broadcasting: equal lengths multiply element-wise; a length-1 operand is
broadcast against the other; any other length combination raises a
`ValueError` (operands could not be broadcast together). -/
def npMul (a b : List ℚ) : Except PyErr (List ℚ) :=
  if a.length = b.length then .ok (List.zipWith (· * ·) a b)
  else if a.length = 1 then .ok (b.map (fun y => a.headI * y))
  else if b.length = 1 then .ok (a.map (fun x => x * b.headI))
  else .error .valueError

/-- In-place addition `a += b` of 1-D numpy arrays: `b` must broadcast to
the shape of `a` (equal length, or `b` of length 1), else a `ValueError`
is raised and `a` is left unchanged. -/
def npAddTo (a b : List ℚ) : Except PyErr (List ℚ) :=
  if b.length = a.length then .ok (List.zipWith (· + ·) a b)
  else if b.length = 1 then .ok (a.map (fun x => x + b.headI))
  else .error .valueError

/-- Scalar division `v / k` of a numpy float by a Python int: numpy does
not raise on `k = 0`; it emits a warning and returns NaN (for `v = 0`) or
±inf, both modelled as `none`. -/
def npScalarDiv (v : ℚ) (k : ℕ) : Option ℚ :=
  if k = 0 then none else some (v / (k : ℚ))

/-- Embedding of `scipy.fft.rfftfreq n d`: computes `val = 1/(n*d)` (a
Python float division that raises `ZeroDivisionError` when `n*d = 0`)
and returns `arange(0, n // 2 + 1) * val`, i.e. the one-sided frequency
bins `k / (n*d)` for `k = 0 .. n // 2`.  `//` is Python floor division;
for `n < 0` the `arange` is empty. -/
def rfftfreq (n : ℤ) (d : ℚ) : Except PyErr (List ℚ) :=
  if (n : ℚ) * d = 0 then .error .zeroDivisionError
  else .ok ((List.range (n.fdiv 2 + 1).toNat).map
    (fun k : ℕ => (k : ℚ) * (1 / ((n : ℚ) * d))))

/-! ## RerunReader.iter_tables (fft_plot.py lines 23-46)

A row batch pulled from the rerun view is modelled as a `List ℕ` of row
identifiers (the embedding only tracks which rows appear where, not
their column payloads); `pa.Table.from_batches` concatenates a list of
batches into one table, modelled by `List.flatten`. -/

/-- Loop body of `iter_tables` (lines 33-46): iterate over the upstream
batches keeping the pending `batch_list` (a list of *batches*, as in the
source) and the running row counter `count_rows`.  Whenever
`count_rows >= num_rows`, the source yields
`pa.Table.from_batches(batch_list[0:num_rows])` and keeps
`batch_list[num_rows:]` — note both slices index the list of batches by
`num_rows`, exactly as written in the source.  After the upstream is
exhausted, a final table is yielded from any remaining batches. -/
def iterTablesGo (num_rows : ℕ) :
    List (List ℕ) → List (List ℕ) → ℕ → List (List ℕ)
  | [], batch_list, _ =>
      if batch_list.length > 0 then [batch_list.flatten] else []
  | b :: bs, batch_list, count_rows =>
      let bl := batch_list ++ [b]
      let c := count_rows + b.length
      if c ≥ num_rows then
        (bl.take num_rows).flatten ::
          iterTablesGo num_rows bs (bl.drop num_rows) (c - num_rows)
      else
        iterTablesGo num_rows bs bl c

/-- The sequence of tables yielded by `RerunReader.iter_tables(num_rows)`
on a given upstream batch sequence (after the view/filter/select
prelude), starting from an empty pending list and zero row count. -/
def iter_tables (num_rows : ℕ) (batches : List (List ℕ)) : List (List ℕ) :=
  iterTablesGo num_rows batches [] 0

/-! ## The time-range filter prelude of iter_tables (lines 23-31) -/

/-- The view on which `select` is called, recording which range filter
(if any) was applied before any batches are pulled. -/
structure ViewState where
  filtered : Option (ℚ × ℚ)
  deriving DecidableEq, Repr

/-- Truth value of the source's guard `range is not None` (line 27): the
name `range` is the Python *builtin* type (the parameter is named
`range_secs`), so the guard compares the builtin against `None` and is
always true. -/
def rangeIsNotNone : Bool := true

/-- Embedding of the filter prelude of `iter_tables` (lines 24-31): build
the view, then `if range is not None: view = view.filter_range_secs(
range_secs[0], range_secs[1])`.  Subscripting `range_secs` when it is
`None` raises a `TypeError` ('NoneType' object is not subscriptable). -/
def iterTablesView (range_secs : Option (ℚ × ℚ)) : Except PyErr ViewState :=
  if rangeIsNotNone then
    match range_secs with
    | none => .error .typeError
    | some (t0, t1) => .ok ⟨some (t0, t1)⟩
  else .ok ⟨none⟩

/-! ## FrequencyDomainAverage (fft_plot.py lines 49-81) -/

/-- State of a `FrequencyDomainAverage` instance (the class fields of
lines 50-55).  `rfreq_fn` is the injected transform
`(array, sampling frequency) → array`. -/
structure FrequencyDomainAverage where
  n : ℤ
  sampling_freq : ℚ
  values : List ℚ
  niter : ℕ
  window : List ℚ
  rfreq_fn : List ℚ → ℚ → List ℚ

/-- Embedding of `FrequencyDomainAverage.__init__` (lines 57-72): raise
`ValueError` if the window array is not 1-D (`window_ndim` is
`len(window.shape)`); otherwise set `values = np.zeros(n // 2 + 1)`
(`np.zeros` raises `ValueError` on a negative size, which happens for
`n ≤ -3` under Python floor division) and `niter = 0`. -/
def FrequencyDomainAverage.init (n : ℤ) (sampling_freq : ℚ)
    (rfreq_fn : List ℚ → ℚ → List ℚ) (window_ndim : ℕ) (window : List ℚ) :
    Except PyErr FrequencyDomainAverage :=
  if window_ndim ≠ 1 then .error .valueError
  else if n.fdiv 2 + 1 < 0 then .error .valueError
  else .ok { n := n, sampling_freq := sampling_freq,
             values := List.replicate (n.fdiv 2 + 1).toNat 0,
             niter := 0, window := window, rfreq_fn := rfreq_fn }

/-- Embedding of `FrequencyDomainAverage.update` (lines 74-77):
`w = time_domain * self.window`, then `self.values += self.rfreq_fn(w,
self.sampling_freq)`, then `self.niter += 1`.  A broadcast `ValueError`
raised by either numpy operation propagates before any field is
assigned, so on error the state is unchanged (no new state is
produced). -/
def FrequencyDomainAverage.update (s : FrequencyDomainAverage)
    (time_domain : List ℚ) : Except PyErr FrequencyDomainAverage := do
  let w ← npMul time_domain s.window
  let newValues ← npAddTo s.values (s.rfreq_fn w s.sampling_freq)
  .ok { s with values := newValues, niter := s.niter + 1 }

/-- Embedding of `FrequencyDomainAverage.get_freq_domain` (lines 79-81):
`freq = sp.fft.rfftfreq(self.n, 1 / self.sampling_freq)` (the Python
division `1 / self.sampling_freq` raises `ZeroDivisionError` when the
sampling frequency is zero) and `return freq, self.values / self.niter`
(numpy array / int division, NaN/inf on `niter = 0`, modelled by
`npScalarDiv`).  The method assigns no field of `self`, so the
translation returns the state unchanged alongside the result. -/
def FrequencyDomainAverage.get_freq_domain (s : FrequencyDomainAverage) :
    Except PyErr (FrequencyDomainAverage × List ℚ × List (Option ℚ)) :=
  if s.sampling_freq = 0 then .error .zeroDivisionError
  else do
    let freq ← rfftfreq s.n (1 / s.sampling_freq)
    .ok (s, freq, s.values.map (fun v => npScalarDiv v s.niter))

/-- Applying `update` with the same array `k` times in sequence
(state-threaded), stopping at the first raised exception. -/
def iterateUpdate : ℕ → FrequencyDomainAverage → List ℚ →
    Except PyErr FrequencyDomainAverage
  | 0, s, _ => .ok s
  | k + 1, s, x => do
      let s' ← s.update x
      iterateUpdate k s' x

/-! ## The module-level processing loop (fft_plot.py lines 121-141) -/

/-- Per-channel detrending of lines 131-132: each logged cell is unwrapped
to its scalar (modelled by taking the rows as scalars already) and the
channel mean over the window is subtracted from every sample. -/
def demean (t : List ℚ) : List ℚ :=
  t.map (fun v => v - t.sum / (t.length : ℚ))

/-- The windows of the upstream table sequence that reach the
`update` calls of the processing loop (lines 121-141): iterating with
`enumerate` index `i`, a table with `num_rows != N` breaks out of the
loop before any update (line 122-123); otherwise the table is processed
(both accumulators of every channel are updated with its detrended
columns) and then `if i > MAXITER: break` (lines 140-141) stops the loop
*after* that table was processed. -/
def processLoop (N maxIter : ℕ) : ℕ → List (List ℚ) → List (List ℚ)
  | _, [] => []
  | i, t :: ts =>
      if t.length ≠ N then []
      else t :: (if i > maxIter then [] else processLoop N maxIter (i + 1) ts)

/-- The processing loop threading one spectral accumulator (one channel,
one transform): mirrors lines 121-141 with the per-window demeaning of
lines 131-132 and the `update` call of lines 134-136. -/
def runLoop (N maxIter : ℕ) : ℕ → FrequencyDomainAverage →
    List (List ℚ) → Except PyErr FrequencyDomainAverage
  | _, s, [] => .ok s
  | i, s, t :: ts =>
      if t.length ≠ N then .ok s
      else (s.update (demean t)).bind
        (fun s' => if i > maxIter then .ok s' else runLoop N maxIter (i + 1) s' ts)

/-! ## Claim theorems -/

/-- C1: the claim of exact windowing fails on the code — `iter_tables`
slices its pending list of *batches* by the row count `num_rows`, so for
`N = 3` and upstream batches `[0,1]` and `[2,3]` (total `R = 4` rows) it
yields a single table of 4 rows instead of one full 3-row window
followed by a 1-row final window (`R div N = 1` full windows,
`R mod N = 1` leftover row). -/
theorem c1_iter_tables_batch_row_confusion :
    iter_tables 3 [[0, 1], [2, 3]] = [[0, 1, 2, 3]] ∧
      (iter_tables 3 [[0, 1], [2, 3]]).map List.length ≠ [3, 1] := by
  decide

/-- C2: the claim fails on the code for an unset range — the guard at
line 27 tests the Python builtin `range` (never `None`) instead of the
parameter `range_secs`, so a call with `range_secs = None` subscripts
`None` and raises a `TypeError` instead of iterating unfiltered. -/
theorem c2_range_filter_none_type_error :
    iterTablesView none = .error .typeError ∧
      iterTablesView (some (3600, 10800)) = .ok ⟨some (3600, 10800)⟩ :=
  ⟨rfl, rfl⟩

/-- C4: the claim fails on the code — on a freshly constructed
accumulator (`niter = 0`), `get_freq_domain` raises nothing and returns
`values / 0`, an array of NaNs (modelled as `none`), instead of an
InvalidStateError. -/
theorem c4_fresh_spectrum_nan :
    ∃ s, FrequencyDomainAverage.init 4 200 (fun _ _ => []) 1 [1, 1, 1, 1] =
        .ok s ∧
      s.get_freq_domain = .ok (s, [0, 50, 100], [none, none, none]) := by
  refine ⟨{ n := 4, sampling_freq := 200, values := [0, 0, 0], niter := 0,
            window := [1, 1, 1, 1], rfreq_fn := fun _ _ => [] }, rfl, ?_⟩
  simp only [FrequencyDomainAverage.get_freq_domain, rfftfreq, npScalarDiv]
  norm_num
  have h4 : (Int.fdiv 4 2 + 1).toNat = 3 := by decide
  rw [h4]
  simp [Except.bind, List.range_succ]
  norm_num
  rfl

/-- C5 counterexample: the claim of eager construction-time validation
fails on the code — constructing `FrequencyDomainAverage` with
`n = 0 ≤ 0`, sampling frequency `-1 ≤ 0` and a taper of length `3 ≠ n`
succeeds without any error. -/
theorem c5_no_construction_validation :
    ∃ s, FrequencyDomainAverage.init 0 (-1) (fun _ _ => []) 1 [1, 1, 1] = .ok s :=
  ⟨{ n := 0, sampling_freq := -1, values := [0], niter := 0,
     window := [1, 1, 1], rfreq_fn := fun _ _ => [] }, rfl⟩

/-- C5 (amended): construction of the accumulator fails (with a
`ValueError`, the code's only construction-time check) exactly when the
taper array is not one-dimensional or when `n // 2 + 1 < 0` makes the
`np.zeros` size negative; `n ≤ 0` otherwise, sampling frequency `≤ 0`
and taper-length mismatch are accepted without error, and `RerunReader`'s
constructor performs no window-length validation at all (`N` is supplied
only later, to `iter_tables`). -/
theorem c5_init_error_characterization (n : ℤ) (fs : ℚ)
    (f : List ℚ → ℚ → List ℚ) (ndim : ℕ) (w : List ℚ) :
    (∃ s, FrequencyDomainAverage.init n fs f ndim w = .ok s) ↔
      ndim = 1 ∧ 0 ≤ n.fdiv 2 + 1 := by
  unfold FrequencyDomainAverage.init
  split_ifs with h1 h2 <;> simp_all

/-- C6 counterexample: the claim that every input of length ≠ N is
rejected fails on the code — with `n = 3` and a length-3 taper, `update`
on the length-1 array `[5]` succeeds via numpy broadcasting (the scalar
is stretched across the taper), incrementing `niter` and adding the
transform of the broadcast product to `values`. -/
theorem c6_length_one_broadcast_succeeds :
    ∃ s t, FrequencyDomainAverage.init 3 1 (fun l _ => [l.sum, l.sum]) 1 [1, 1, 1] =
        .ok s ∧
      s.update [5] = .ok t ∧ t.niter = 1 ∧ t.values = [15, 15] := by
  refine ⟨{ n := 3, sampling_freq := 1, values := [0, 0], niter := 0,
            window := [1, 1, 1], rfreq_fn := fun l _ => [l.sum, l.sum] },
          { n := 3, sampling_freq := 1, values := [15, 15], niter := 1,
            window := [1, 1, 1], rfreq_fn := fun l _ => [l.sum, l.sum] },
          rfl, ?_, rfl, rfl⟩
  norm_num [FrequencyDomainAverage.update, npMul, npAddTo, Bind.bind, Except.bind]

/-- C6 (amended): `update` with an input whose length differs from the
taper length raises a broadcast `ValueError` — unless the input or the
taper has length 1, in which case numpy broadcasting lets the call
succeed.  The error is raised by the element-wise product before any
field assignment, so a failed call leaves `niter` and `values`
unchanged (no post-state is produced). -/
theorem c6_update_mismatch_value_error (s : FrequencyDomainAverage) (td : List ℚ)
    (h1 : td.length ≠ s.window.length) (h2 : td.length ≠ 1)
    (h3 : s.window.length ≠ 1) :
    s.update td = .error .valueError := by
  have hm : npMul td s.window = .error .valueError := by
    unfold npMul
    split_ifs <;> simp_all
  unfold FrequencyDomainAverage.update
  rw [hm]
  rfl

/-- C6 witness: the amended rejection theorem applied at a concrete
accumulator (`n = 3`, length-3 boxcar taper) and the length-2 input
`[1, 2]`. -/
theorem c6_update_mismatch_value_error_witness :
    ([(1 : ℚ), 2].length ≠ [(1 : ℚ), 1, 1].length) ∧ ([(1 : ℚ), 2].length ≠ 1) ∧
      ([(1 : ℚ), 1, 1].length ≠ 1) ∧
      FrequencyDomainAverage.update
        { n := 3, sampling_freq := 1, values := [0, 0], niter := 0,
          window := [1, 1, 1], rfreq_fn := fun l _ => [l.sum, l.sum] } [1, 2] =
        .error .valueError :=
  ⟨by decide, by decide, by decide,
   c6_update_mismatch_value_error _ _ (by decide) (by decide) (by decide)⟩

/-- Helper: on a stream of full windows only, the loop starting at
`enumerate` index `i ≤ maxIter + 1` processes
`min (length of the stream) (maxIter + 2 - i)` windows: one per index
from `i` up to and including `maxIter + 1`, because the `i > MAXITER`
check runs only after the current window was processed. -/
theorem processLoop_full_length (N M : ℕ) :
    ∀ (ts : List (List ℚ)) (i : ℕ), (∀ t ∈ ts, t.length = N) → i ≤ M + 1 →
      (processLoop N M i ts).length = min ts.length (M + 2 - i) := by
  intro ts
  induction ts with
  | nil => intro i _ _; simp [processLoop]
  | cons t ts ih =>
      intro i h hi
      have ht : t.length = N := h t (by simp)
      show (if t.length ≠ N then [] else
        t :: (if i > M then [] else processLoop N M (i + 1) ts)).length = _
      rw [if_neg (by simp [ht])]
      by_cases hgt : i > M
      · rw [if_pos hgt]
        simp
        omega
      · rw [if_neg hgt]
        have hrec := ih (i + 1) (fun t' ht' => h t' (List.mem_cons_of_mem _ ht'))
          (by omega)
        simp [hrec]
        omega

/-- C3 counterexample: the claim of an exact `maxIter` bound fails on
the code — with `maxIter = 1` and five full windows upstream, the loop
processes 3 windows, not 1, because `if i > MAXITER: break` runs after
the window at index `i` was already processed and first fires at
`i = maxIter + 1`. -/
theorem c3_maxiter_counterexample :
    (processLoop 1 1 0 [[0], [0], [0], [0], [0]]).length = 3 ∧
      (processLoop 1 1 0 [[0], [0], [0], [0], [0]]).length ≠ 1 := by
  decide

/-- C3 (amended): given an upstream supplying at least `maxIter + 2`
full windows, the processing loop calls the accumulator updates for
exactly `maxIter + 2` full windows (indices 0 through `maxIter + 1`)
and then stops, regardless of how much more upstream data exists. -/
theorem c3_maxiter_plus_two (N M : ℕ) (ts : List (List ℚ))
    (h : ∀ t ∈ ts, t.length = N) (hlen : M + 2 ≤ ts.length) :
    (processLoop N M 0 ts).length = M + 2 := by
  have hx := processLoop_full_length N M ts 0 h (by omega)
  omega

/-- C3 witness: the amended bound applied at `N = 1`, `maxIter = 0` and
three singleton windows: exactly 2 windows are processed. -/
theorem c3_maxiter_plus_two_witness :
    (∀ t ∈ [[(0 : ℚ)], [0], [0]], t.length = 1) ∧ 0 + 2 ≤ 3 ∧
      (processLoop 1 0 0 [[(0 : ℚ)], [0], [0]]).length = 0 + 2 :=
  ⟨by decide, by decide, c3_maxiter_plus_two 1 0 _ (by decide) (by decide)⟩

/-- Helper: every table that reaches the update calls of the processing
loop has exactly `N` rows, since the `num_rows != N` check breaks out of
the loop before the updates. -/
theorem processLoop_all_full (N M : ℕ) :
    ∀ (ts : List (List ℚ)) (i : ℕ), ∀ t ∈ processLoop N M i ts, t.length = N := by
  intro ts
  induction ts with
  | nil => intro i t ht; simp [processLoop] at ht
  | cons a as ih =>
      intro i t ht
      rw [show processLoop N M i (a :: as) = if a.length ≠ N then [] else
        a :: (if i > M then [] else processLoop N M (i + 1) as) from rfl] at ht
      by_cases ha : a.length ≠ N
      · rw [if_pos ha] at ht
        simp at ht
      · rw [if_neg ha] at ht
        push_neg at ha
        rcases List.mem_cons.mp ht with h | h
        · rw [h]; exact ha
        · by_cases hgt : i > M
          · rw [if_pos hgt] at h; simp at h
          · rw [if_neg hgt] at h; exact ih (i + 1) t h

/-- C9: encountering a window shorter than `N` stops the processing loop
immediately — no table is processed and the accumulator state is
returned unchanged (so a stream ending in `0 < r < N` leftover rows
contributes zero updates) — and every window that does reach the update
calls has exactly `N` rows, so no accumulator's `niter` or `values` is
ever changed by a partial window. -/
theorem c9_short_window_stops_loop (N M i : ℕ) (p : List ℚ)
    (rest ts : List (List ℚ)) (s : FrequencyDomainAverage) (hp : p.length < N) :
    processLoop N M i (p :: rest) = [] ∧
      runLoop N M i s (p :: rest) = .ok s ∧
      ∀ t ∈ processLoop N M i ts, t.length = N := by
  have hne : p.length ≠ N := Nat.ne_of_lt hp
  refine ⟨?_, ?_, processLoop_all_full N M ts i⟩
  · show (if p.length ≠ N then [] else _) = []
    rw [if_pos hne]
  · rw [show runLoop N M i s (p :: rest) = if p.length ≠ N then .ok s else
      (s.update (demean p)).bind
        (fun s' => if i > M then .ok s' else runLoop N M (i + 1) s' rest) from rfl]
    rw [if_pos hne]

/-- C9 witness: with `N = 2`, a leading 1-row window stops the loop with
the accumulator untouched, and on a stream of 2-row and 1-row windows
every processed window has exactly 2 rows. -/
theorem c9_short_window_stops_loop_witness :
    [(9 : ℚ)].length < 2 ∧
      (processLoop 2 5 0 [[(9 : ℚ)], [1, 2]] = [] ∧
        runLoop 2 5 0
          { n := 2, sampling_freq := 1, values := [0, 0], niter := 0,
            window := [1, 1], rfreq_fn := fun _ _ => [] }
          [[(9 : ℚ)], [1, 2]] = .ok
          { n := 2, sampling_freq := 1, values := [0, 0], niter := 0,
            window := [1, 1], rfreq_fn := fun _ _ => [] } ∧
        ∀ t ∈ processLoop 2 5 0 [[(1 : ℚ), 2], [3]], t.length = 2) :=
  ⟨by decide, c9_short_window_stops_loop 2 5 0 _ _ _ _ (by decide)⟩

/-- C10: reading the spectrum is a pure observation — whenever
`get_freq_domain` returns, the state it hands back is the input state
unchanged (the method assigns no field), and an immediately repeated
call returns the identical result. -/
theorem c10_get_freq_domain_pure (s s' : FrequencyDomainAverage)
    (freq : List ℚ) (vals : List (Option ℚ))
    (h : s.get_freq_domain = .ok (s', freq, vals)) :
    s' = s ∧ s'.get_freq_domain = .ok (s', freq, vals) := by
  have hs : s' = s := by
    unfold FrequencyDomainAverage.get_freq_domain at h
    by_cases h0 : s.sampling_freq = 0
    · rw [if_pos h0] at h
      exact absurd h (by simp)
    · rw [if_neg h0] at h
      cases hr : rfftfreq s.n (1 / s.sampling_freq) with
      | error e =>
          rw [hr] at h
          exact absurd h (by simp [Bind.bind, Except.bind])
      | ok fr =>
          rw [hr] at h
          simp only [Bind.bind, Except.bind, Except.ok.injEq, Prod.mk.injEq] at h
          exact h.1.symm
  subst hs
  exact ⟨rfl, h⟩

/-- C10 witness: the purity theorem applied at a concrete accumulator
with `n = 2`, sampling frequency 1 and one accumulated window. -/
theorem c10_get_freq_domain_pure_witness :
    FrequencyDomainAverage.get_freq_domain
        { n := 2, sampling_freq := 1, values := [3, 4], niter := 1,
          window := [1, 1], rfreq_fn := fun _ _ => [] } =
      .ok ({ n := 2, sampling_freq := 1, values := [3, 4], niter := 1,
             window := [1, 1], rfreq_fn := fun _ _ => [] },
        [0, 1 / 2], [some 3, some 4]) ∧
      ({ n := 2, sampling_freq := 1, values := [3, 4], niter := 1,
         window := [1, 1], rfreq_fn := fun _ _ => [] } :
          FrequencyDomainAverage) =
        { n := 2, sampling_freq := 1, values := [3, 4], niter := 1,
          window := [1, 1], rfreq_fn := fun _ _ => [] } ∧
      FrequencyDomainAverage.get_freq_domain
        { n := 2, sampling_freq := 1, values := [3, 4], niter := 1,
          window := [1, 1], rfreq_fn := fun _ _ => [] } =
      .ok ({ n := 2, sampling_freq := 1, values := [3, 4], niter := 1,
             window := [1, 1], rfreq_fn := fun _ _ => [] },
        [0, 1 / 2], [some 3, some 4]) := by
  have h : FrequencyDomainAverage.get_freq_domain
      { n := 2, sampling_freq := 1, values := [3, 4], niter := 1,
        window := [1, 1], rfreq_fn := fun _ _ => [] } =
      .ok ({ n := 2, sampling_freq := 1, values := [3, 4], niter := 1,
             window := [1, 1], rfreq_fn := fun _ _ => [] },
        [0, 1 / 2], [some 3, some 4]) := by
    simp only [FrequencyDomainAverage.get_freq_domain, rfftfreq, npScalarDiv]
    norm_num
    simp [Except.bind, List.range_succ, Int.toNat_ofNat]
    norm_num
    rfl
  exact ⟨h, (c10_get_freq_domain_pure _ _ _ _ h).1,
    (c10_get_freq_domain_pure _ _ _ _ h).2⟩

/-- Helper: multiplying every element of a list by the scalar zero gives
the all-zeros list of the same length. -/
theorem map_zero_mul_eq_replicate (r : List ℚ) :
    r.map (fun v => ((0 : ℕ) : ℚ) * v) = List.replicate r.length 0 := by
  induction r with
  | nil => rfl
  | cons a r ih => simp [ih, List.replicate_succ]

/-- Helper: adding `r` element-wise to `c • r` gives `(c + 1) • r`. -/
theorem zipWith_add_map_mul_succ (r : List ℚ) (c : ℕ) :
    List.zipWith (· + ·) (r.map (fun v => (c : ℚ) * v)) r =
      r.map (fun v => ((c + 1 : ℕ) : ℚ) * v) := by
  induction r with
  | nil => rfl
  | cons a r ih =>
      simp only [List.map_cons, List.zipWith_cons_cons, ih]
      congr 1
      push_cast
      ring

/-- Helper: a successful `update` on a well-shaped input adds the
transform of the tapered window to `values` and increments `niter`. -/
theorem update_full_window (s : FrequencyDomainAverage) (x : List ℚ)
    (hx : x.length = s.window.length)
    (hlen : (s.rfreq_fn (List.zipWith (· * ·) x s.window) s.sampling_freq).length =
      s.values.length) :
    s.update x = .ok { s with
      values := List.zipWith (· + ·) s.values
        (s.rfreq_fn (List.zipWith (· * ·) x s.window) s.sampling_freq),
      niter := s.niter + 1 } := by
  unfold FrequencyDomainAverage.update npMul npAddTo
  rw [if_pos hx]
  simp only [Bind.bind, Except.bind]
  rw [if_pos hlen]

/-- Helper: applying `update` `j` more times with the same input `x`, on
a state whose `values` already hold `c` copies of the transform result,
yields `c + j` copies and `niter = c + j`. -/
theorem iterateUpdate_same_input (n : ℤ) (fs : ℚ) (f : List ℚ → ℚ → List ℚ)
    (w x : List ℚ) (hx : x.length = w.length) :
    ∀ (j c : ℕ), iterateUpdate j
      { n := n, sampling_freq := fs,
        values := (f (List.zipWith (· * ·) x w) fs).map (fun v => (c : ℚ) * v),
        niter := c, window := w, rfreq_fn := f } x =
      .ok { n := n, sampling_freq := fs,
            values := (f (List.zipWith (· * ·) x w) fs).map
              (fun v => ((c + j : ℕ) : ℚ) * v),
            niter := c + j, window := w, rfreq_fn := f } := by
  intro j
  induction j with
  | zero => intro c; simp [iterateUpdate]
  | succ j ih =>
      intro c
      rw [show iterateUpdate (j + 1)
        { n := n, sampling_freq := fs,
          values := (f (List.zipWith (· * ·) x w) fs).map (fun v => (c : ℚ) * v),
          niter := c, window := w, rfreq_fn := f } x =
        (FrequencyDomainAverage.update
          { n := n, sampling_freq := fs,
            values := (f (List.zipWith (· * ·) x w) fs).map (fun v => (c : ℚ) * v),
            niter := c, window := w, rfreq_fn := f } x).bind
          (fun s' => iterateUpdate j s' x) from rfl]
      rw [update_full_window _ _ hx (by simp)]
      simp only [Bind.bind, Except.bind]
      rw [zipWith_add_map_mul_succ]
      have hstep := ih (c + 1)
      rw [show c + 1 + j = c + (j + 1) from by omega] at hstep
      exact hstep

/-- Helper: dividing each element of `k • r` by the iteration count `k`
recovers `r` exactly (no NaN arises since `k ≠ 0`). -/
theorem map_scalar_div_cancel (r : List ℚ) (k : ℕ) (hk : k ≠ 0) :
    (r.map (fun v => (k : ℚ) * v)).map (fun v => npScalarDiv v k) = r.map some := by
  have hkq : (k : ℚ) ≠ 0 := Nat.cast_ne_zero.mpr hk
  induction r with
  | nil => rfl
  | cons a r ih =>
      simp only [List.map_cons]
      rw [ih]
      have ha : npScalarDiv ((k : ℚ) * a) k = some a := by
        unfold npScalarDiv
        rw [if_neg hk, mul_div_cancel_left₀ _ hkq]
      rw [ha]

/-- C7: deterministic unweighted averaging — on a fresh accumulator,
calling `update(x)` exactly `k ≥ 1` times with the identical length-
matched array `x` and then reading the spectrum yields averaged values
equal (exactly, in rational arithmetic) to `transform(x ⊙ taper, fs)`,
independent of `k`. -/
theorem c7_deterministic_averaging (n : ℤ) (fs : ℚ) (f : List ℚ → ℚ → List ℚ)
    (w x : List ℚ) (k : ℕ) (hn : 0 < n) (hfs : fs ≠ 0)
    (hx : x.length = w.length)
    (hf : (f (List.zipWith (· * ·) x w) fs).length = (n.fdiv 2 + 1).toNat)
    (hk : k ≠ 0) :
    ∃ s₀ s₁ freq,
      FrequencyDomainAverage.init n fs f 1 w = .ok s₀ ∧
      iterateUpdate k s₀ x = .ok s₁ ∧
      s₁.get_freq_domain =
        .ok (s₁, freq, (f (List.zipWith (· * ·) x w) fs).map some) := by
  have h0 : ¬ (n.fdiv 2 + 1 < 0) := by
    have := Int.fdiv_nonneg (le_of_lt hn) (by norm_num : (0 : ℤ) ≤ 2)
    omega
  have hinit : FrequencyDomainAverage.init n fs f 1 w = .ok
      { n := n, sampling_freq := fs,
        values := List.replicate (n.fdiv 2 + 1).toNat 0,
        niter := 0, window := w, rfreq_fn := f } := by
    unfold FrequencyDomainAverage.init
    rw [if_neg (by simp), if_neg h0]
  have hvals : List.replicate (n.fdiv 2 + 1).toNat 0 =
      (f (List.zipWith (· * ·) x w) fs).map (fun v => ((0 : ℕ) : ℚ) * v) := by
    rw [map_zero_mul_eq_replicate, hf]
  refine ⟨{ n := n, sampling_freq := fs,
            values := List.replicate (n.fdiv 2 + 1).toNat 0,
            niter := 0, window := w, rfreq_fn := f },
          { n := n, sampling_freq := fs,
            values := (f (List.zipWith (· * ·) x w) fs).map
              (fun v => ((0 + k : ℕ) : ℚ) * v),
            niter := 0 + k, window := w, rfreq_fn := f },
          (List.range (n.fdiv 2 + 1).toNat).map
            (fun j : ℕ => (j : ℚ) * (1 / ((n : ℚ) * (1 / fs)))),
          hinit, ?_, ?_⟩
  · rw [hvals]
    exact iterateUpdate_same_input n fs f w x hx k 0
  · unfold FrequencyDomainAverage.get_freq_domain rfftfreq
    rw [if_neg hfs]
    rw [if_neg (mul_ne_zero (Int.cast_ne_zero.mpr hn.ne') (one_div_ne_zero hfs))]
    simp only [Bind.bind, Except.bind]
    rw [map_scalar_div_cancel _ _ (by omega)]

/-- C7 witness: the averaging theorem applied at `n = 2`, `fs = 1`, the
transform `l ↦ [sum l, sum l]`, boxcar taper `[1, 1]`, input `[2, 3]`
and `k = 2` updates. -/
theorem c7_deterministic_averaging_witness :
    ∃ s₀ s₁ freq,
      FrequencyDomainAverage.init 2 1 (fun l _ => [l.sum, l.sum]) 1 [1, 1] = .ok s₀ ∧
      iterateUpdate 2 s₀ [2, 3] = .ok s₁ ∧
      s₁.get_freq_domain = .ok (s₁, freq,
        (((fun l _ => [l.sum, l.sum]) : List ℚ → ℚ → List ℚ)
          (List.zipWith (· * ·) [(2 : ℚ), 3] [1, 1]) 1).map some) :=
  c7_deterministic_averaging 2 1 (fun l _ => [l.sum, l.sum]) [1, 1] [2, 3] 2
    (by decide) (by norm_num) (by decide) (by decide) (by decide)

/-- C8: frequency-axis correctness — for window length `n > 0` and
sampling frequency `fs > 0`, the axis computed by
`rfftfreq(n, 1/fs)` inside `get_freq_domain` has length `n // 2 + 1`,
satisfies `freq[k] = k * fs / n` (so `freq[0] = 0` and, for even `n`,
`freq[n/2] = fs/2`), is strictly increasing with uniform spacing
`fs / n`, and is recomputed on each read: every accumulator state with
the same `(n, fs)` yields this same axis, regardless of its `values`,
`niter` or taper, and the state holds no frequency-axis field. -/
theorem c8_frequency_axis (n : ℤ) (fs : ℚ) (hn : 0 < n) (hfs : 0 < fs) :
    ∃ freq, rfftfreq n (1 / fs) = .ok freq ∧
      freq.length = (n.fdiv 2 + 1).toNat ∧
      (∀ k, k < freq.length → freq.getD k 0 = (k : ℚ) * fs / (n : ℚ)) ∧
      freq.getD 0 0 = 0 ∧
      (2 ∣ n → freq.getD (n.fdiv 2).toNat 0 = fs / 2) ∧
      List.Sorted (· < ·) freq ∧
      (∀ k, k + 1 < freq.length →
        freq.getD (k + 1) 0 - freq.getD k 0 = fs / (n : ℚ)) ∧
      (∀ s : FrequencyDomainAverage, s.n = n → s.sampling_freq = fs →
        ∃ vals, s.get_freq_domain = .ok (s, freq, vals)) := by
  have hnq : (n : ℚ) ≠ 0 := Int.cast_ne_zero.mpr hn.ne'
  have hnqpos : (0 : ℚ) < (n : ℚ) := by exact_mod_cast hn
  have hfsne : fs ≠ 0 := hfs.ne'
  have hd : (n : ℚ) * (1 / fs) ≠ 0 := mul_ne_zero hnq (one_div_ne_zero hfsne)
  have hc : 1 / ((n : ℚ) * (1 / fs)) = fs / (n : ℚ) := by
    field_simp
  have hdivnn : 0 ≤ n.fdiv 2 := Int.fdiv_nonneg hn.le (by norm_num)
  have hm0 : 0 < (n.fdiv 2 + 1).toNat := by omega
  have hlen : ((List.range (n.fdiv 2 + 1).toNat).map
      (fun j : ℕ => (j : ℚ) * (1 / ((n : ℚ) * (1 / fs))))).length =
      (n.fdiv 2 + 1).toNat := by
    simp
  have hget : ∀ k, k < (n.fdiv 2 + 1).toNat →
      ((List.range (n.fdiv 2 + 1).toNat).map
        (fun j : ℕ => (j : ℚ) * (1 / ((n : ℚ) * (1 / fs))))).getD k 0 =
      (k : ℚ) * fs / (n : ℚ) := by
    intro k hk
    rw [List.getD_eq_getElem _ _ (by simpa using hk)]
    rw [List.getElem_map, List.getElem_range, hc, mul_div_assoc]
  refine ⟨(List.range (n.fdiv 2 + 1).toNat).map
      (fun j : ℕ => (j : ℚ) * (1 / ((n : ℚ) * (1 / fs)))),
    by unfold rfftfreq; rw [if_neg hd], hlen, ?_, ?_, ?_, ?_, ?_, ?_⟩
  · intro k hk
    exact hget k (by rwa [hlen] at hk)
  · rw [hget 0 hm0]
    simp
  · rintro ⟨t, ht⟩
    have htpos : 0 < t := by omega
    have hfd : n.fdiv 2 = t := by
      rw [ht, Int.mul_fdiv_cancel_left _ (by norm_num)]
    have hkt : t.toNat < (n.fdiv 2 + 1).toNat := by omega
    have hcast : ((t.toNat : ℕ) : ℚ) = (t : ℚ) := by
      exact_mod_cast congrArg (fun z : ℤ => (z : ℚ)) (Int.toNat_of_nonneg htpos.le)
    have htq : (t : ℚ) ≠ 0 := Int.cast_ne_zero.mpr htpos.ne'
    have hidx : (n.fdiv 2).toNat = t.toNat := by rw [hfd]
    rw [hidx, hget _ hkt, hcast, ht]
    push_cast
    field_simp
    ring
  · rw [List.Sorted, List.pairwise_map]
    have hcpos : (0 : ℚ) < 1 / ((n : ℚ) * (1 / fs)) := by
      rw [hc]
      exact div_pos hfs hnqpos
    apply List.Pairwise.imp ?_ (List.sorted_lt_range _)
    intro a b hab
    exact mul_lt_mul_of_pos_right (by exact_mod_cast hab) hcpos
  · intro k hk
    rw [hlen] at hk
    rw [hget (k + 1) hk, hget k (by omega)]
    push_cast
    field_simp
    ring
  · intro s h1 h2
    unfold FrequencyDomainAverage.get_freq_domain
    rw [h1, h2, if_neg hfsne]
    rw [show rfftfreq n (1 / fs) = .ok ((List.range (n.fdiv 2 + 1).toNat).map
      (fun j : ℕ => (j : ℚ) * (1 / ((n : ℚ) * (1 / fs))))) from by
        unfold rfftfreq; rw [if_neg hd]]
    exact ⟨_, rfl⟩

/-- C8 witness: the frequency-axis theorem applied at `n = 4` and
`fs = 200`. -/
theorem c8_frequency_axis_witness :
    (0 : ℤ) < 4 ∧ (0 : ℚ) < 200 ∧
      (∃ freq, rfftfreq 4 (1 / 200) = .ok freq ∧
        freq.length = ((4 : ℤ).fdiv 2 + 1).toNat ∧
        (∀ k, k < freq.length → freq.getD k 0 = (k : ℚ) * 200 / ((4 : ℤ) : ℚ)) ∧
        freq.getD 0 0 = 0 ∧
        ((2 : ℤ) ∣ 4 → freq.getD ((4 : ℤ).fdiv 2).toNat 0 = 200 / 2) ∧
        List.Sorted (· < ·) freq ∧
        (∀ k, k + 1 < freq.length →
          freq.getD (k + 1) 0 - freq.getD k 0 = 200 / ((4 : ℤ) : ℚ)) ∧
        (∀ s : FrequencyDomainAverage, s.n = 4 → s.sampling_freq = 200 →
          ∃ vals, s.get_freq_domain = .ok (s, freq, vals))) :=
  ⟨by norm_num, by norm_num, c8_frequency_axis 4 200 (by norm_num) (by norm_num)⟩
